import Mathlib

/-!
Shallow embedding of `src/downloader.py` (WebPagesDownloadToZip).

The program fetches a configured list of URLs over HTTP and stores the
response bodies into one timestamped ZIP archive.  The embedding below
translates the source faithfully:

* `urllib.parse.urlparse` / `os.path.basename`, as used on URL paths, are
  modelled on `List Char` following CPython's algorithm: `urlsplit`
  (scheme split at the first `:` when the candidate is a valid scheme,
  netloc after `//` up to the first of `/?#`, fragment split at the first
  `#`, then query split at the first `?`) followed by `urlparse`'s
  `;params` split off the path's final segment when the lowercased
  scheme is in `uses_params`; `os.path.basename` keeps the suffix after
  the last `/`.
* `requests.Response.ok` is `True` exactly when `raise_for_status` does
  not raise, i.e. when the status code is outside `400..599`.
* Effects (filesystem checks, HTTP GET, random sleep, ZIP writes) are
  mediated by an explicit environment `Env` and recorded in an event
  trace, so that "no network call happened" is the absence of events.
* Python exceptions are `Except` errors: `KeyError` for a missing config
  key, `AssertionError` for the three `assert`s, a transport error when
  `requests.get` raises, a write error when `ZipFile.writestr` raises.
  The `with zipfile.ZipFile(...)` block closes the archive on every exit
  path, so the model appends the close event unconditionally.
-/

namespace Downloader

/-- Characters CPython's `urlsplit` allows in a URL scheme
(`scheme_chars = letters + digits + "+-."`). -/
def isSchemeChar (c : Char) : Bool :=
  c.isAlphanum || c = '+' || c = '-' || c = '.'

/-- CPython accepts `url[:i]` (the part before the first `:`) as a scheme
when it is nonempty, starts with a letter and has only scheme chars. -/
def validScheme : List Char → Bool
  | [] => false
  | c :: cs => c.isAlpha && cs.all isSchemeChar

/-- Strip a leading `scheme:` from the URL when the part before the first
`:` is a valid scheme, as `urlsplit` does; otherwise leave it unchanged. -/
def splitScheme (s : List Char) : List Char :=
  match s.dropWhile (fun c => !(c = ':')) with
  | [] => s
  | _ :: after => if validScheme (s.takeWhile (fun c => !(c = ':'))) then after else s

/-- Delimiters ending the netloc in `urlsplit`'s `_splitnetloc`. -/
def isNetlocDelim (c : Char) : Bool := c = '/' || c = '?' || c = '#'

/-- When the remainder starts with `//`, drop the netloc (everything up to
the first of `/?#`), keeping the delimiter; otherwise leave unchanged. -/
def splitNetloc : List Char → List Char
  | c1 :: c2 :: rest =>
    if c1 = '/' ∧ c2 = '/' then rest.dropWhile (fun c => !(isNetlocDelim c))
    else c1 :: c2 :: rest
  | s => s

/-- The schemes for which `urlparse` splits `;params` off the path:
CPython's `uses_params`, which contains the empty scheme. -/
def usesParams : List (List Char) :=
  ["".data, "ftp".data, "hdl".data, "prospero".data, "http".data,
   "imap".data, "https".data, "shttp".data, "rtsp".data, "rtspu".data,
   "sip".data, "sips".data, "mms".data, "sftp".data, "tel".data]

/-- The scheme `urlsplit` extracts (lowercased, as `url[:i].lower()`
does), or the empty scheme when the part before the first `:` is not a
valid scheme. -/
def urlSchemeChars (s : List Char) : List Char :=
  match s.dropWhile (fun c => !(c = ':')) with
  | [] => []
  | _ :: _ =>
    if validScheme (s.takeWhile (fun c => !(c = ':'))) then
      (s.takeWhile (fun c => !(c = ':'))).map Char.toLower
    else []

/-- `_splitparams` applied to a path: cut the final path segment at its
first `;`.  CPython cuts at `url.find(';', url.rfind('/'))` when the
path contains a `/` (returning the path unchanged when that find
fails), else at the first `;`; `urlparse`'s `';' in url` guard is
extensionally absorbed here because `takeWhile` leaves a segment
without `;` unchanged. -/
def splitparams (p : List Char) : List Char :=
  if '/' ∈ p then
    (p.reverse.dropWhile (fun c => !(c = '/'))).reverse ++
      (p.reverse.takeWhile (fun c => !(c = '/'))).reverse.takeWhile
        (fun c => !(c = ';'))
  else
    p.takeWhile (fun c => !(c = ';'))

/-- The path component as `urllib.parse.urlsplit` computes it: strip
the scheme, strip the netloc, cut the fragment at the first `#`, then
cut the query at the first `?`. -/
def rawPathChars (s : List Char) : List Char :=
  ((splitNetloc (splitScheme s)).takeWhile (fun c => !(c = '#'))).takeWhile
    (fun c => !(c = '?'))

/-- The path component of a URL as `urllib.parse.urlparse` computes it:
`urlsplit`'s path, with `;params` split off its final segment when the
scheme is one of `uses_params` (which includes `http`, `https` and the
empty scheme). -/
def urlPathChars (s : List Char) : List Char :=
  if urlSchemeChars s ∈ usesParams then splitparams (rawPathChars s)
  else rawPathChars s

/-- `os.path.basename` on a POSIX path: the suffix after the last `/`. -/
def basenameChars (s : List Char) : List Char :=
  (s.reverse.takeWhile (fun c => !(c = '/'))).reverse

/-- The archive entry name the loop derives from a URL
(`os.path.basename(urllib.parse.urlparse(url).path)`, falling back to
`"index.html"` when the basename is empty / falsy). -/
def entryName (url : String) : String :=
  let basename := basenameChars (urlPathChars url.data)
  if basename = [] then "index.html" else String.mk basename

/-- The configuration object parsed from the JSON file.  A `none` field
models a missing dictionary key (Python raises `KeyError` on access);
`some` with an empty value models a present but falsy value. -/
structure Config where
  datadir : Option String
  headers : Option (List (String × String))
  urls : Option (List String)

/-- What `requests.get` does for one URL: either it returns a response
(status code, reason phrase, decoded text body) or it raises a
transport-level exception (connection error etc.). -/
inductive FetchResult where
  | response (status : Nat) (reason : String) (body : String)
  | raises (msg : String)
deriving DecidableEq

/-- The ambient world `run` interacts with: filesystem queries, the
current timestamp, the script directory, the HTTP client, whether a ZIP
write succeeds (disk full etc.), and the random stream consumed by
`randint` (one draw per loop iteration). -/
structure Env where
  fileExists : String → Bool
  isDir : String → Bool
  now : String
  scriptDir : String
  fetch : String → FetchResult
  writeOk : String → Bool
  rand : Nat → Nat

/-- Python exceptions that can escape `run`. -/
inductive RunError where
  | keyError (key : String)
  | assertConfig
  | assertDatadir
  | assertZipExists
  | transport (msg : String)
  | writeError (name : String)
deriving DecidableEq

/-- The spec's `InvalidConfigError` abstracts the two exceptions
`__check_config` can raise: `KeyError` for a missing key and
`AssertionError("invalid configuration!")` for a falsy value. -/
def isInvalidConfigError : RunError → Bool
  | .keyError _ => true
  | .assertConfig => true
  | _ => false

/-- Observable side effects of one run, in order of occurrence. -/
inductive Event where
  | sleep (seconds : Nat)
  | httpGet (url : String)
  | zipOpen (path : String)
  | zipWrite (name : String) (content : String)
  | logError (reason : String)
  | zipClose
deriving DecidableEq

/-- `random.randint(lo, hi)`: a draw from the inclusive range `lo..hi`,
here realized from one raw random number. -/
def randint (lo hi r : Nat) : Nat := lo + r % (hi - lo + 1)

/-- `requests.Response.ok`: `True` iff `raise_for_status()` does not
raise, i.e. the status code is neither a 4xx client error nor a 5xx
server error. -/
def responseOk (status : Nat) : Bool :=
  !(decide (400 ≤ status) && decide (status < 600))

/-- `__check_config`: `config["datadir"]` / `config["headers"]` /
`config["urls"]` must exist (else `KeyError`) and be truthy (else
`AssertionError`); the final `len(config["urls"]) > 0` assert is
subsumed by truthiness of the list. -/
def check_config (c : Config) : Except RunError Unit :=
  match c.datadir with
  | none => .error (.keyError "datadir")
  | some d =>
    if d = "" then .error .assertConfig else
    match c.headers with
    | none => .error (.keyError "headers")
    | some h =>
      if h = [] then .error .assertConfig else
      match c.urls with
      | none => .error (.keyError "urls")
      | some u => if u = [] then .error .assertConfig else .ok ()

/-- `Path.joinpath` as used here: `datadir` is kept when absolute,
otherwise joined below the script directory. -/
def get_check_datadir (c : Config) (env : Env) : Except RunError String :=
  match c.datadir with
  | none => .error (.keyError "datadir")
  | some d =>
    let datadir := if d.data.head? = some '/' then d else env.scriptDir ++ "/" ++ d
    if env.isDir datadir then .ok datadir else .error .assertDatadir

/-- The target archive path `__get_check_zipfilename` computes:
`datadir / (time.strftime("%Y-%m-%d_%H%M%S") + ".zip")`. -/
def zipTarget (datadir : String) (env : Env) : String :=
  datadir ++ "/" ++ env.now ++ ".zip"

/-- `__get_check_zipfilename`: compute the timestamped path and assert it
does not exist yet. -/
def get_check_zipfilename (datadir : String) (env : Env) : Except RunError String :=
  let filepath := zipTarget datadir env
  if env.fileExists filepath then .error .assertZipExists else .ok filepath

/-- The events emitted at the top of one loop iteration: nothing when
`--no-sleep` is set, otherwise one sleep of `randint(35, 621)` seconds. -/
def sleepEvents (noSleep : Bool) (env : Env) (i : Nat) : List Event :=
  if noSleep then [] else [.sleep (randint 35 621 (env.rand i))]

/-- The body of the `for url in urls` loop inside the `with` block:
optional random sleep, HTTP GET (a raised transport error propagates),
then on `r.ok` write `r.text` under the derived entry name (a raised
write error propagates), else `logging.error(r.reason)` and continue. -/
def fetchLoop (noSleep : Bool) (env : Env) : List String → Nat →
    Except RunError Unit × List Event
  | [], _ => (.ok (), [])
  | url :: rest, i =>
    let pre := sleepEvents noSleep env i
    match env.fetch url with
    | .raises msg => (.error (.transport msg), pre ++ [.httpGet url])
    | .response status reason body =>
      if responseOk status then
        let name := entryName url
        if env.writeOk name then
          let next := fetchLoop noSleep env rest (i + 1)
          (next.1, pre ++ [.httpGet url, .zipWrite name body] ++ next.2)
        else
          (.error (.writeError name), pre ++ [.httpGet url])
      else
        let next := fetchLoop noSleep env rest (i + 1)
        (next.1, pre ++ [.httpGet url, .logError reason] ++ next.2)

/-- `run(config, no_sleep)`: validate the config, resolve the data
directory, compute and check the archive path, then open the ZIP, run
the fetch loop, and close the ZIP on every exit path (the `with`
statement guarantees the close even when the loop body raises). -/
def run (c : Config) (noSleep : Bool) (env : Env) :
    Except RunError Unit × List Event :=
  match check_config c with
  | .error e => (.error e, [])
  | .ok _ =>
    match get_check_datadir c env with
    | .error e => (.error e, [])
    | .ok datadir =>
      match get_check_zipfilename datadir env with
      | .error e => (.error e, [])
      | .ok zipfilename =>
        let loop := fetchLoop noSleep env (c.urls.getD []) 0
        (loop.1, .zipOpen zipfilename :: loop.2 ++ [.zipClose])

/-- `sys.exit(main())`: `main` returns `None` (exit code 0) unless an
exception propagates, in which case Python exits with code 1. -/
def exitCode (c : Config) (noSleep : Bool) (env : Env) : Nat :=
  match (run c noSleep env).1 with
  | .ok _ => 0
  | .error _ => 1

/-- The sequence of entries written into the archive, in write order,
read off the event trace. -/
def archiveOf : List Event → List (String × String)
  | [] => []
  | .zipWrite name content :: tr => (name, content) :: archiveOf tr
  | _ :: tr => archiveOf tr

/-- Reading an entry by name from a finished ZIP: Python's `zipfile`
builds `NameToInfo` by iterating the central directory in order, so a
later entry with the same name shadows an earlier one — the last write
wins. -/
def readArchive (entries : List (String × String)) (name : String) :
    Option String :=
  ((entries.filter (fun e => e.1 = name)).getLast?).map (fun e => e.2)

/-- A well-formed configuration with two URLs, as in the spec's scenario. -/
def cfgTwo : Config :=
  { datadir := some "/data"
    headers := some [("User-Agent", "x")]
    urls := some ["https://a.test/page1.html", "https://a.test/"] }

/-- A benign environment: data directory exists, target ZIP does not,
every GET returns 200, every write succeeds. -/
def envOk : Env :=
  { fileExists := fun _ => false
    isDir := fun _ => true
    now := "2022-10-06_120000"
    scriptDir := "/s"
    fetch := fun _ => .response 200 "OK" "body"
    writeOk := fun _ => true
    rand := fun _ => 0 }

/-- A configuration in which some required field is missing (the JSON
object has no such key) or present but empty. -/
def configMissingOrEmpty (c : Config) : Prop :=
  c.datadir = none ∨ c.datadir = some "" ∨ c.headers = none ∨
  c.headers = some [] ∨ c.urls = none ∨ c.urls = some []

/-- `True` iff the run outcome is the failure `__check_config` raises
(the spec's `InvalidConfigError`). -/
def isInvalidConfigFailure : Except RunError Unit → Bool
  | .error e => isInvalidConfigError e
  | .ok _ => false

/-- Configuration whose JSON object has no `urls` key at all. -/
def cfgNoUrls : Config :=
  { datadir := some "/data", headers := some [("User-Agent", "x")], urls := none }

/-- Environment in which every path already exists on disk. -/
def envZipExists : Env := { envOk with fileExists := fun _ => true }

/-- Environment in which every archive write raises (e.g. disk full). -/
def envWriteFails : Env := { envOk with writeOk := fun _ => false }

/-- Configuration listing two URLs, the first of which will suffer a
transport-level failure in `envTransport`. -/
def cfgTransport : Config :=
  { datadir := some "/data"
    headers := some [("User-Agent", "x")]
    urls := some ["https://a.test/x.html", "https://a.test/y.html"] }

/-- Environment whose HTTP client raises a connection error for the
first URL of `cfgTransport` and answers 200 for everything else. -/
def envTransport : Env :=
  { envOk with fetch := fun u =>
      if u = "https://a.test/x.html" then .raises "connection refused"
      else .response 200 "OK" "body" }

/-- Configuration with a single URL. -/
def cfgOne : Config :=
  { datadir := some "/data"
    headers := some [("User-Agent", "x")]
    urls := some ["https://a.test/p.html"] }

/-- Environment answering 304 Not Modified (not 2xx, yet `ok` for
`requests`) to every GET. -/
def env304 : Env :=
  { envOk with fetch := fun _ => .response 304 "Not Modified" "cached" }

/-- Spec-side description, for the refinement in C3: the archive the
spec expects after a run — one entry per URL whose response succeeds,
in configured order, named by the Entry Namer and holding the body. -/
def specExpectedEntries (env : Env) (urls : List String) : List (String × String) :=
  urls.filterMap (fun u =>
    match env.fetch u with
    | .response s _ b => if responseOk s then some (entryName u, b) else none
    | .raises _ => none)

/-- Two URLs sharing the final path segment `same.html`. -/
def cfgDup : Config :=
  { datadir := some "/data"
    headers := some [("User-Agent", "x")]
    urls := some ["https://a.test/one/same.html", "https://a.test/two/same.html"] }

/-- Environment answering distinct bodies for the two colliding URLs. -/
def envBodies : Env :=
  { envOk with fetch := fun u =>
      if u = "https://a.test/one/same.html" then .response 200 "OK" "first"
      else .response 200 "OK" "second" }

/-- Every HTTP GET event in the trace is immediately preceded by a
sleep event of a whole number of seconds within the inclusive bounds
35..621. -/
def GetsPaced (tr : List Event) : Prop :=
  ∀ tr1 url tr2, tr = tr1 ++ Event.httpGet url :: tr2 →
    ∃ tr0 d, tr1 = tr0 ++ [Event.sleep d] ∧ 35 ≤ d ∧ d ≤ 621

/-- Truncating a URL at the first `?` or `#`, i.e. dropping the query
string and the fragment. -/
def stripQueryFragment (s : List Char) : List Char :=
  s.takeWhile (fun c => !(c = '?' || c = '#'))

example : entryName "https://example.com/" = "index.html" := by decide

example : entryName "https://example.com" = "index.html" := by decide

example : entryName "https://a.test/page1.html" = "page1.html" := by decide

example : entryName "https://h/a/b.html?x=1#f" = "b.html" := by decide

example : entryName "https://h/a/b/" = "index.html" := by decide

example : entryName "https://h/a%20b" = "a%20b" := by decide

example : entryName "https://h/a/;x" = "index.html" := by decide

example : entryName "https://h/a/b.html;x=1" = "b.html" := by decide

example : entryName "HTTP://h/a/b.html;x=1" = "b.html" := by decide

example : entryName "/a/b;x" = "b" := by decide

example : entryName "mailto:a/b;x" = "b;x" := by decide

example :
    run cfgTwo true envOk =
      (.ok (),
       [.zipOpen "/data/2022-10-06_120000.zip",
        .httpGet "https://a.test/page1.html", .zipWrite "page1.html" "body",
        .httpGet "https://a.test/", .zipWrite "index.html" "body",
        .zipClose]) := rfl

example :
    archiveOf (run cfgTwo true envOk).2 =
      [("page1.html", "body"), ("index.html", "body")] := by decide

lemma check_config_error_of_invalid (c : Config) (h : configMissingOrEmpty c) :
    ∃ e, isInvalidConfigError e = true ∧ check_config c = .error e := by
  obtain ⟨dd, hh, uu⟩ := c
  simp only [configMissingOrEmpty] at h
  rcases dd with _ | d
  · exact ⟨.keyError "datadir", rfl, rfl⟩
  by_cases hd : d = ""
  · exact ⟨.assertConfig, rfl, by simp [check_config, hd]⟩
  rcases hh with _ | hlist
  · exact ⟨.keyError "headers", rfl, by simp [check_config, hd]⟩
  by_cases hh0 : hlist = []
  · exact ⟨.assertConfig, rfl, by simp [check_config, hd, hh0]⟩
  rcases uu with _ | ulist
  · exact ⟨.keyError "urls", rfl, by simp [check_config, hd, hh0]⟩
  by_cases hu0 : ulist = []
  · exact ⟨.assertConfig, rfl, by simp [check_config, hd, hh0, hu0]⟩
  · simp [hd, hh0, hu0] at h

/-- C4: a configuration with `datadir`, `headers` or `urls` missing or
empty makes `run` fail with the error `__check_config` raises (the
spec's `InvalidConfigError`, i.e. `KeyError` or `AssertionError`), with
an empty event trace — no directory resolution, no archive-path check,
no network call, no side effect — and with an outcome independent of
the environment, so the validation consulted nothing but the config. -/
theorem c4_invalid_config_fails_fast (c : Config) (noSleep : Bool) (env env2 : Env)
    (h : configMissingOrEmpty c) :
    isInvalidConfigFailure (run c noSleep env).1 = true ∧
    (run c noSleep env).2 = [] ∧
    run c noSleep env = run c noSleep env2 := by
  obtain ⟨e, he, hc⟩ := check_config_error_of_invalid c h
  refine ⟨?_, ?_, ?_⟩ <;> simp [run, hc, isInvalidConfigFailure, he]

/-- C4 witness: the concrete configuration with a missing `urls` key,
under two different environments. -/
theorem c4_witness :
    isInvalidConfigFailure (run cfgNoUrls true envOk).1 = true ∧
    (run cfgNoUrls true envOk).2 = [] ∧
    run cfgNoUrls true envOk = run cfgNoUrls true envZipExists :=
  c4_invalid_config_fails_fast cfgNoUrls true envOk envZipExists
    (by simp [configMissingOrEmpty, cfgNoUrls])

/-- C5: when the computed archive path (data directory joined with the
current-time filename) already exists, `run` fails with the
`AssertionError` from `__get_check_zipfilename` and the trace is empty:
no HTTP request was issued, and the archive was never created or
opened. -/
theorem c5_existing_archive_fails_fast (c : Config) (noSleep : Bool) (env : Env)
    (datadir : String)
    (hcfg : check_config c = .ok ())
    (hdir : get_check_datadir c env = .ok datadir)
    (hexists : env.fileExists (zipTarget datadir env) = true) :
    run c noSleep env = (.error .assertZipExists, []) := by
  simp [run, hcfg, hdir, get_check_zipfilename, hexists]

/-- C5 witness: concrete valid configuration, target ZIP already on disk. -/
theorem c5_witness :
    run cfgTwo true envZipExists = (.error .assertZipExists, []) :=
  c5_existing_archive_fails_fast cfgTwo true envZipExists "/data" rfl rfl rfl

/-- C7: whenever the archive was opened, the event trace ends with the
close event — the `with` block finalizes the ZIP on every exit path,
normal loop completion and exceptions raised inside the loop body
(transport errors, archive-write errors) alike. -/
theorem c7_archive_closed_on_every_path (c : Config) (noSleep : Bool) (env : Env)
    (p : String) (hopen : Event.zipOpen p ∈ (run c noSleep env).2) :
    (run c noSleep env).2.getLast? = some Event.zipClose := by
  unfold run at hopen ⊢
  cases hcc : check_config c with
  | error e => simp [hcc] at hopen
  | ok u =>
    cases u
    cases hdd : get_check_datadir c env with
    | error e => simp [hcc, hdd] at hopen
    | ok dd =>
      cases hz : get_check_zipfilename dd env with
      | error e => simp [hcc, hdd, hz] at hopen
      | ok z =>
        simp only [hcc, hdd, hz]
        rw [show Event.zipOpen z :: (fetchLoop noSleep env (c.urls.getD []) 0).2 ++
              [Event.zipClose] =
            (Event.zipOpen z :: (fetchLoop noSleep env (c.urls.getD []) 0).2) ++
              [Event.zipClose] from rfl,
          List.getLast?_concat]

/-- C7 witness: a run aborted by an archive-write error still closes the ZIP. -/
theorem c7_witness :
    (run cfgTwo true envWriteFails).2.getLast? = some Event.zipClose :=
  c7_archive_closed_on_every_path cfgTwo true envWriteFails
    "/data/2022-10-06_120000.zip" (by decide)

/-- C1 counterexample: when the HTTP GET for the first URL fails at the
transport level (the client raises), the fetch-archive loop does raise —
`run` ends in the propagated transport error and the second URL is never
fetched, so the batch does fail because of one URL. -/
theorem c1_counterexample :
    (run cfgTransport true envTransport).1 =
      .error (.transport "connection refused") ∧
    Event.httpGet "https://a.test/y.html" ∉ (run cfgTransport true envTransport).2 :=
  ⟨rfl, by decide⟩

/-- C1 (amended): only non-ok HTTP responses are tolerated — the loop
logs the reason, writes no entry and continues with the remaining URLs;
a transport-level failure (the client raises instead of returning a
response) is not caught: it propagates out of the loop with no entry
written for that URL and no further URL processed, and any error
escaping `run` makes the process exit nonzero. -/
theorem c1_amended_failure_policy (noSleep : Bool) (env : Env) (url : String)
    (rest : List String) (i : Nat) :
    (∀ status reason body, env.fetch url = .response status reason body →
        responseOk status = false →
        fetchLoop noSleep env (url :: rest) i =
          ((fetchLoop noSleep env rest (i + 1)).1,
           sleepEvents noSleep env i ++ [.httpGet url, .logError reason] ++
             (fetchLoop noSleep env rest (i + 1)).2)) ∧
    (∀ msg, env.fetch url = .raises msg →
        fetchLoop noSleep env (url :: rest) i =
          (.error (.transport msg), sleepEvents noSleep env i ++ [.httpGet url])) ∧
    (∀ c : Config, ∀ e : RunError, ∀ tr : List Event,
        run c noSleep env = (.error e, tr) → exitCode c noSleep env = 1) := by
  refine ⟨?_, ?_, ?_⟩
  · intro status reason body hf hok
    simp [fetchLoop, hf, hok]
  · intro msg hf
    simp [fetchLoop, hf]
  · intro c e tr h
    simp [exitCode, h]

/-- C1 witness: the amended transport clause at a concrete URL. -/
theorem c1_witness :
    fetchLoop true envTransport ["https://a.test/x.html"] 0 =
      (.error (.transport "connection refused"),
       sleepEvents true envTransport 0 ++ [.httpGet "https://a.test/x.html"]) :=
  (c1_amended_failure_policy true envTransport "https://a.test/x.html" [] 0).2.1
    "connection refused" (by decide)

/-- C2 counterexample: a 304 response is not 2xx-class, and yet the run
writes an archive entry for the URL — `requests.Response.ok` accepts
every status below 400, refuting "entry written iff the status is
2xx-class". -/
theorem c2_counterexample :
    ¬(200 ≤ 304 ∧ 304 ≤ 299) ∧
    archiveOf (run cfgOne true env304).2 = [("p.html", "cached")] :=
  ⟨by decide, by decide⟩

/-- C2 (amended): for a URL whose GET returns a response, an archive
entry is written iff the response is ok in the `requests` sense — its
status code lies outside 400..599, which is weaker than "2xx-class";
on a non-ok status no entry is written, the server-provided reason is
logged, and the loop moves on to the remaining URLs. -/
theorem c2_amended_entry_iff_ok (noSleep : Bool) (env : Env) (url : String)
    (rest : List String) (i status : Nat) (reason body : String)
    (hresp : env.fetch url = .response status reason body) :
    (responseOk status = true → env.writeOk (entryName url) = true →
        fetchLoop noSleep env (url :: rest) i =
          ((fetchLoop noSleep env rest (i + 1)).1,
           sleepEvents noSleep env i ++
             [.httpGet url, .zipWrite (entryName url) body] ++
             (fetchLoop noSleep env rest (i + 1)).2)) ∧
    (responseOk status = false →
        fetchLoop noSleep env (url :: rest) i =
          ((fetchLoop noSleep env rest (i + 1)).1,
           sleepEvents noSleep env i ++ [.httpGet url, .logError reason] ++
             (fetchLoop noSleep env rest (i + 1)).2)) ∧
    (responseOk status = true ↔ ¬(400 ≤ status ∧ status < 600)) := by
  refine ⟨?_, ?_, ?_⟩
  · intro hok hw
    simp [fetchLoop, hresp, hok, hw]
  · intro hok
    simp [fetchLoop, hresp, hok]
  · simp [responseOk]
    omega

/-- C2 witness: the amended ok clause at the 304 environment. -/
theorem c2_witness :
    fetchLoop true env304 ["https://a.test/p.html"] 0 =
      ((fetchLoop true env304 ([] : List String) 1).1,
       sleepEvents true env304 0 ++
         [.httpGet "https://a.test/p.html",
          .zipWrite (entryName "https://a.test/p.html") "cached"] ++
         (fetchLoop true env304 ([] : List String) 1).2) :=
  (c2_amended_entry_iff_ok true env304 "https://a.test/p.html" [] 0 304
      "Not Modified" "cached" rfl).1 (by decide) (by decide)

lemma archiveOf_append (l1 l2 : List Event) :
    archiveOf (l1 ++ l2) = archiveOf l1 ++ archiveOf l2 := by
  induction l1 with
  | nil => rfl
  | cons e tl ih => cases e <;> simp [archiveOf, ih]

lemma archiveOf_sleepEvents (noSleep : Bool) (env : Env) (i : Nat) :
    archiveOf (sleepEvents noSleep env i) = [] := by
  cases noSleep <;> simp [sleepEvents, archiveOf]

lemma fetchLoop_all_responses (env : Env) (noSleep : Bool)
    (hw : ∀ n, env.writeOk n = true) :
    ∀ (urls : List String) (i : Nat),
      (∀ u ∈ urls, ∀ msg, env.fetch u ≠ .raises msg) →
      (fetchLoop noSleep env urls i).1 = .ok () ∧
      archiveOf (fetchLoop noSleep env urls i).2 = specExpectedEntries env urls := by
  intro urls
  induction urls with
  | nil => intro i _; exact ⟨rfl, rfl⟩
  | cons u rest ih =>
    intro i h
    have hrest : ∀ v ∈ rest, ∀ msg, env.fetch v ≠ .raises msg :=
      fun v hv => h v (List.mem_cons_of_mem u hv)
    have hihyp := ih (i + 1) hrest
    cases hf : env.fetch u with
    | raises msg => exact absurd hf (h u (List.mem_cons_self u rest) msg)
    | response s r b =>
      by_cases hok : responseOk s = true
      · refine ⟨?_, ?_⟩
        · simp [fetchLoop, hf, hok, hw, hihyp.1]
        · simp [fetchLoop, hf, hok, hw, archiveOf_append,
            archiveOf_sleepEvents, archiveOf, hihyp.2, specExpectedEntries]
      · rw [Bool.not_eq_true] at hok
        refine ⟨?_, ?_⟩
        · simp [fetchLoop, hf, hok, hihyp.1]
        · simp [fetchLoop, hf, hok, archiveOf_append,
            archiveOf_sleepEvents, archiveOf, hihyp.2, specExpectedEntries]

lemma specExpectedEntries_length_of_all_ok (env : Env) :
    ∀ urls : List String,
      (∀ u ∈ urls, ∃ s r b, env.fetch u = .response s r b ∧ responseOk s = true) →
      (specExpectedEntries env urls).length = urls.length := by
  intro urls
  induction urls with
  | nil => intro _; rfl
  | cons u rest ih =>
    intro h
    obtain ⟨s, r, b, hf, hok⟩ := h u (List.mem_cons_self u rest)
    have := ih (fun v hv => h v (List.mem_cons_of_mem u hv))
    simp [specExpectedEntries, hf, hok] at this ⊢
    exact this

/-- C3 counterexample: a transport error on one URL makes the process
exit nonzero, refuting "when only a subset of URLs succeeds ... the
exit code is still zero" for raising failures. -/
theorem c3_counterexample :
    envTransport.fetch "https://a.test/x.html" = .raises "connection refused" ∧
    exitCode cfgTransport true envTransport = 1 :=
  ⟨rfl, rfl⟩

/-- C3 (amended): provided every fetch returns a response (no transport
error raised) and all archive writes succeed, the run exits zero and
the archive holds entries exactly for the subset of URLs whose response
is ok, in order; when all responses are ok the archive has exactly one
entry per configured URL (modulo basename collisions, since entries
with equal names shadow each other when read back). A raising fetch
instead aborts the run with a nonzero exit (see the counterexample). -/
theorem c3_amended_entries_and_exit (c : Config) (noSleep : Bool) (env : Env)
    (datadir : String)
    (hcfg : check_config c = .ok ())
    (hdir : get_check_datadir c env = .ok datadir)
    (hnew : env.fileExists (zipTarget datadir env) = false)
    (hresp : ∀ u ∈ c.urls.getD [], ∀ msg, env.fetch u ≠ .raises msg)
    (hw : ∀ n, env.writeOk n = true) :
    (run c noSleep env).1 = .ok () ∧ exitCode c noSleep env = 0 ∧
    archiveOf (run c noSleep env).2 = specExpectedEntries env (c.urls.getD []) ∧
    ((∀ u ∈ c.urls.getD [], ∃ s r b, env.fetch u = .response s r b ∧
        responseOk s = true) →
      (archiveOf (run c noSleep env).2).length = (c.urls.getD []).length) := by
  have hloop := fetchLoop_all_responses env noSleep hw (c.urls.getD []) 0 hresp
  have hrun : run c noSleep env =
      ((fetchLoop noSleep env (c.urls.getD []) 0).1,
       Event.zipOpen (zipTarget datadir env) ::
         (fetchLoop noSleep env (c.urls.getD []) 0).2 ++ [Event.zipClose]) := by
    simp [run, hcfg, hdir, get_check_zipfilename, hnew]
  have harch : archiveOf (run c noSleep env).2 =
      specExpectedEntries env (c.urls.getD []) := by
    rw [hrun]
    simp only [List.cons_append]
    rw [show Event.zipOpen (zipTarget datadir env) ::
          ((fetchLoop noSleep env (c.urls.getD []) 0).2 ++ [Event.zipClose]) =
        [Event.zipOpen (zipTarget datadir env)] ++
          ((fetchLoop noSleep env (c.urls.getD []) 0).2 ++ [Event.zipClose]) from rfl]
    rw [archiveOf_append, archiveOf_append]
    simp [archiveOf, hloop.2]
  refine ⟨?_, ?_, harch, ?_⟩
  · rw [hrun]
    exact hloop.1
  · simp [exitCode, hrun, hloop.1]
  · intro hall
    rw [harch]
    exact specExpectedEntries_length_of_all_ok env (c.urls.getD []) hall

/-- C3 witness: the all-2xx scenario from the spec — two URLs, both 200,
two entries, exit code zero. -/
theorem c3_witness :
    (run cfgTwo true envOk).1 = .ok () ∧ exitCode cfgTwo true envOk = 0 ∧
    (archiveOf (run cfgTwo true envOk).2).length = (cfgTwo.urls.getD []).length :=
  have h := c3_amended_entries_and_exit cfgTwo true envOk "/data" rfl rfl rfl
    (fun u _ msg hraise => by simp [envOk] at hraise) (fun n => rfl)
  ⟨h.1, h.2.1, h.2.2.2 (fun u _ => ⟨200, "OK", "body", rfl, rfl⟩)⟩

/-- C9: when two URLs in one run produce the same entry basename (and
both are fetched with ok responses), the later write silently shadows
the earlier entry — the run completes without error and reading the
finalized archive at that name yields the body of the last URL. -/
theorem c9_last_write_wins (c : Config) (noSleep : Bool) (env : Env)
    (datadir : String) (u1 u2 : String) (s1 s2 : Nat) (r1 r2 b1 b2 : String)
    (hcfg : check_config c = .ok ())
    (hdir : get_check_datadir c env = .ok datadir)
    (hnew : env.fileExists (zipTarget datadir env) = false)
    (hurls : c.urls = some [u1, u2])
    (hname : entryName u1 = entryName u2)
    (hf1 : env.fetch u1 = .response s1 r1 b1) (hok1 : responseOk s1 = true)
    (hf2 : env.fetch u2 = .response s2 r2 b2) (hok2 : responseOk s2 = true)
    (hw : ∀ n, env.writeOk n = true) :
    (run c noSleep env).1 = .ok () ∧
    readArchive (archiveOf (run c noSleep env).2) (entryName u1) = some b2 := by
  have hu : c.urls.getD [] = [u1, u2] := by rw [hurls]; rfl
  constructor
  · simp [run, hcfg, hdir, get_check_zipfilename, hnew, hu, fetchLoop,
      hf1, hok1, hf2, hok2, hw]
  · simp [run, hcfg, hdir, get_check_zipfilename, hnew, hu, fetchLoop,
      hf1, hok1, hf2, hok2, hw, archiveOf_append, archiveOf_sleepEvents,
      archiveOf, readArchive, hname]

lemma basenameChars_no_slash (s : List Char) : '/' ∉ basenameChars s := by
  intro h
  rw [basenameChars, List.mem_reverse] at h
  have := List.mem_takeWhile_imp h
  simp at this

lemma basenameChars_eq_nil_iff (s : List Char) :
    basenameChars s = [] ↔ s = [] ∨ s.getLast? = some '/' := by
  rw [basenameChars, List.reverse_eq_nil_iff, ← List.head?_reverse]
  have hs : (s = []) ↔ (s.reverse = []) := List.reverse_eq_nil_iff.symm
  rw [hs]
  generalize s.reverse = l
  cases l with
  | nil => simp
  | cons c cs =>
    by_cases hp : c = '/'
    · simp [List.takeWhile_cons, hp]
    · simp [List.takeWhile_cons, hp]

lemma basenameChars_suffix (s : List Char) :
    ∃ p, s = p ++ basenameChars s := by
  refine ⟨(s.reverse.dropWhile (fun c => !(c = '/'))).reverse, ?_⟩
  rw [basenameChars, ← List.reverse_append,
    List.takeWhile_append_dropWhile (fun c => !(c = '/')) s.reverse,
    List.reverse_reverse]

lemma getsPaced_nil : GetsPaced [] := by
  intro tr1 url tr2 h
  exact absurd h (by simp)

lemma getsPaced_cons (e : Event) (tr : List Event)
    (he : ∀ u, e ≠ .httpGet u) (h : GetsPaced tr) : GetsPaced (e :: tr) := by
  intro tr1 url tr2 heq
  cases tr1 with
  | nil =>
    rw [List.nil_append] at heq
    injection heq with h1 h2
    exact absurd h1 (he url)
  | cons e1 rest1 =>
    rw [List.cons_append] at heq
    injection heq with h1 h2
    obtain ⟨tr0, d, hrest, hd1, hd2⟩ := h rest1 url tr2 h2
    exact ⟨e :: tr0, d, by simp [h1, hrest], hd1, hd2⟩

lemma getsPaced_sleep_get (d : Nat) (u : String) (tr : List Event)
    (h35 : 35 ≤ d) (h621 : d ≤ 621) (h : GetsPaced tr) :
    GetsPaced (.sleep d :: .httpGet u :: tr) := by
  intro tr1 url tr2 heq
  cases tr1 with
  | nil =>
    rw [List.nil_append] at heq
    injection heq with h1 h2
    exact absurd h1 (by simp)
  | cons e1 rest1 =>
    rw [List.cons_append] at heq
    injection heq with h1 h2
    cases rest1 with
    | nil =>
      exact ⟨[], d, by simp [h1], h35, h621⟩
    | cons e2 rest2 =>
      rw [List.cons_append] at h2
      injection h2 with h3 h4
      obtain ⟨tr0, d', hrest, hd1, hd2⟩ := h rest2 url tr2 h4
      exact ⟨.sleep d :: .httpGet u :: tr0, d', by simp [h1, h3, hrest], hd1, hd2⟩

lemma getsPaced_concat (tr : List Event) (e : Event)
    (he : ∀ u, e ≠ .httpGet u) (h : GetsPaced tr) : GetsPaced (tr ++ [e]) := by
  intro tr1 url tr2 heq
  rcases List.eq_nil_or_concat tr2 with rfl | ⟨t2, e2, rfl⟩
  · have := List.append_inj' heq (by rfl)
    injection this.2 with h1 h2
    exact absurd h1 (he url)
  · rw [List.concat_eq_append, ← List.cons_append, ← List.append_assoc] at heq
    have := List.append_inj' heq (by rfl)
    exact h tr1 url t2 this.1

lemma randint_bounds (r : Nat) :
    35 ≤ randint 35 621 r ∧ randint 35 621 r ≤ 621 := by
  unfold randint
  have h : r % (621 - 35 + 1) < 621 - 35 + 1 := Nat.mod_lt r (by omega)
  omega

lemma randint_onto (d : Nat) (h35 : 35 ≤ d) (h621 : d ≤ 621) :
    ∃ r, randint 35 621 r = d := by
  refine ⟨d - 35, ?_⟩
  unfold randint
  rw [Nat.mod_eq_of_lt (by omega)]
  omega

lemma fetchLoop_paced (env : Env) :
    ∀ (urls : List String) (i : Nat), GetsPaced (fetchLoop false env urls i).2 := by
  intro urls
  induction urls with
  | nil => intro i; exact getsPaced_nil
  | cons u rest ih =>
    intro i
    have hb := randint_bounds (env.rand i)
    cases hf : env.fetch u with
    | raises msg =>
      have htr : (fetchLoop false env (u :: rest) i).2 =
          [Event.sleep (randint 35 621 (env.rand i)), Event.httpGet u] := by
        simp [fetchLoop, hf, sleepEvents]
      rw [htr]
      exact getsPaced_sleep_get _ _ _ hb.1 hb.2 getsPaced_nil
    | response s r b =>
      by_cases hok : responseOk s = true
      · by_cases hwr : env.writeOk (entryName u) = true
        · have htr : (fetchLoop false env (u :: rest) i).2 =
              Event.sleep (randint 35 621 (env.rand i)) :: Event.httpGet u ::
                Event.zipWrite (entryName u) b ::
                  (fetchLoop false env rest (i + 1)).2 := by
            simp [fetchLoop, hf, hok, hwr, sleepEvents]
          rw [htr]
          exact getsPaced_sleep_get _ _ _ hb.1 hb.2
            (getsPaced_cons _ _ (fun v hv => nomatch hv) (ih (i + 1)))
        · have htr : (fetchLoop false env (u :: rest) i).2 =
              [Event.sleep (randint 35 621 (env.rand i)), Event.httpGet u] := by
            simp [fetchLoop, hf, hok, hwr, sleepEvents]
          rw [htr]
          exact getsPaced_sleep_get _ _ _ hb.1 hb.2 getsPaced_nil
      · rw [Bool.not_eq_true] at hok
        have htr : (fetchLoop false env (u :: rest) i).2 =
            Event.sleep (randint 35 621 (env.rand i)) :: Event.httpGet u ::
              Event.logError r :: (fetchLoop false env rest (i + 1)).2 := by
          simp [fetchLoop, hf, hok, sleepEvents]
        rw [htr]
        exact getsPaced_sleep_get _ _ _ hb.1 hb.2
          (getsPaced_cons _ _ (fun v hv => nomatch hv) (ih (i + 1)))

lemma fetchLoop_no_sleep (env : Env) :
    ∀ (urls : List String) (i : Nat) (d : Nat),
      Event.sleep d ∉ (fetchLoop true env urls i).2 := by
  intro urls
  induction urls with
  | nil => intro i d h; simp [fetchLoop] at h
  | cons u rest ih =>
    intro i d
    cases hf : env.fetch u with
    | raises msg => simp [fetchLoop, hf, sleepEvents]
    | response s r b =>
      by_cases hok : responseOk s = true
      · by_cases hwr : env.writeOk (entryName u) = true
        · simp [fetchLoop, hf, hok, hwr, sleepEvents, ih (i + 1) d]
        · simp [fetchLoop, hf, hok, hwr, sleepEvents]
      · rw [Bool.not_eq_true] at hok
        simp [fetchLoop, hf, hok, sleepEvents, ih (i + 1) d]

/-- C8: with the no-sleep flag no sleep occurs at all; without it every
HTTP GET — including the very first — is immediately preceded by a
sleep whose whole-seconds duration lies in the inclusive range 35..621,
and the `randint(35, 621)` draw attains exactly that range. -/
theorem c8_sleep_policy (c : Config) (env : Env) :
    (∀ d, Event.sleep d ∉ (run c true env).2) ∧
    GetsPaced (run c false env).2 ∧
    (∀ r, 35 ≤ randint 35 621 r ∧ randint 35 621 r ≤ 621) ∧
    (∀ d, 35 ≤ d → d ≤ 621 → ∃ r, randint 35 621 r = d) := by
  refine ⟨?_, ?_, randint_bounds, randint_onto⟩
  · intro d
    cases hcc : check_config c with
    | error e => simp [run, hcc]
    | ok u =>
      cases u
      cases hdd : get_check_datadir c env with
      | error e => simp [run, hcc, hdd]
      | ok dd =>
        cases hz : get_check_zipfilename dd env with
        | error e => simp [run, hcc, hdd, hz]
        | ok z =>
          simp [run, hcc, hdd, hz, fetchLoop_no_sleep env (c.urls.getD []) 0 d]
  · cases hcc : check_config c with
    | error e =>
      have htr : (run c false env).2 = [] := by simp [run, hcc]
      rw [htr]
      exact getsPaced_nil
    | ok u =>
      cases u
      cases hdd : get_check_datadir c env with
      | error e =>
        have htr : (run c false env).2 = [] := by simp [run, hcc, hdd]
        rw [htr]
        exact getsPaced_nil
      | ok dd =>
        cases hz : get_check_zipfilename dd env with
        | error e =>
          have htr : (run c false env).2 = [] := by simp [run, hcc, hdd, hz]
          rw [htr]
          exact getsPaced_nil
        | ok z =>
          have htr : (run c false env).2 =
              Event.zipOpen z ::
                ((fetchLoop false env (c.urls.getD []) 0).2 ++ [Event.zipClose]) := by
            simp [run, hcc, hdd, hz]
          rw [htr]
          exact getsPaced_cons _ _ (fun v hv => nomatch hv)
            (getsPaced_concat _ _ (fun v hv => nomatch hv)
              (fetchLoop_paced env (c.urls.getD []) 0))

/-- C8 witness: the random draw's bounds at a concrete raw value, via
the theorem at a concrete configuration and environment. -/
theorem c8_witness :
    35 ≤ randint 35 621 0 ∧ randint 35 621 0 ≤ 621 :=
  (c8_sleep_policy cfgTwo envOk).2.2.1 0

/-- C9 witness: the colliding pair — the archive read back at
`same.html` yields the second body. -/
theorem c9_witness :
    (run cfgDup true envBodies).1 = .ok () ∧
    readArchive (archiveOf (run cfgDup true envBodies).2)
      (entryName "https://a.test/one/same.html") = some "second" :=
  c9_last_write_wins cfgDup true envBodies "/data"
    "https://a.test/one/same.html" "https://a.test/two/same.html"
    200 200 "OK" "OK" "first" "second"
    rfl rfl rfl rfl (by decide) (by decide) (by decide) (by decide) (by decide)
    (fun n => rfl)

/-- C6: the Entry Namer yields `index.html` exactly when the URL's path
has no final segment — the path is empty (no path at all, as in
`https://host`) or ends in `/` (trailing slash, as in `https://host/`);
for every other URL it yields the last path segment verbatim: a literal
suffix of the path, containing no `/`, with no percent-decoding or any
other character change. -/
theorem c6_entry_namer (url : String) :
    (basenameChars (urlPathChars url.data) = [] ↔
      urlPathChars url.data = [] ∨ (urlPathChars url.data).getLast? = some '/') ∧
    (basenameChars (urlPathChars url.data) = [] → entryName url = "index.html") ∧
    (basenameChars (urlPathChars url.data) ≠ [] →
      (entryName url).data = basenameChars (urlPathChars url.data) ∧
      '/' ∉ (entryName url).data ∧
      ∃ p, urlPathChars url.data = p ++ (entryName url).data) := by
  refine ⟨basenameChars_eq_nil_iff _, ?_, ?_⟩
  · intro h
    simp [entryName, h]
  · intro h
    have hdata : (entryName url).data = basenameChars (urlPathChars url.data) := by
      simp [entryName, h]
    refine ⟨hdata, ?_, ?_⟩
    · rw [hdata]
      exact basenameChars_no_slash _
    · rw [hdata]
      exact basenameChars_suffix _

/-- C6 witness: both root URL forms map to `index.html`; a regular URL
keeps its final path segment. -/
theorem c6_witness :
    entryName "https://host/" = "index.html" ∧
    entryName "https://host" = "index.html" ∧
    (entryName "https://a.test/page1.html").data =
      basenameChars (urlPathChars ("https://a.test/page1.html").data) :=
  ⟨(c6_entry_namer "https://host/").2.1 (by decide),
   (c6_entry_namer "https://host").2.1 (by decide),
   ((c6_entry_namer "https://a.test/page1.html").2.2 (by decide)).1⟩

lemma mem_of_takeWhile_mem {α} (p : α → Bool) :
    ∀ (l : List α) (x : α), x ∈ l.takeWhile p → x ∈ l := by
  intro l
  induction l with
  | nil => intro x h; simp at h
  | cons a tl ih =>
    intro x h
    by_cases hp : p a = true
    · rw [List.takeWhile_cons_of_pos hp] at h
      rcases List.mem_cons.1 h with rfl | h2
      · exact List.mem_cons_self _ _
      · exact List.mem_cons_of_mem a (ih x h2)
    · rw [List.takeWhile_cons_of_neg hp] at h
      simp at h

lemma takeWhile_cons_pos (p : Char → Bool) (a : Char) (l : List Char)
    (h : p a = true) : (a :: l).takeWhile p = a :: l.takeWhile p :=
  List.takeWhile_cons_of_pos h

lemma takeWhile_cons_neg (p : Char → Bool) (a : Char) (l : List Char)
    (h : p a = false) : (a :: l).takeWhile p = [] :=
  List.takeWhile_cons_of_neg (by simp [h])

lemma dropWhile_cons_pos (p : Char → Bool) (a : Char) (l : List Char)
    (h : p a = true) : (a :: l).dropWhile p = l.dropWhile p :=
  List.dropWhile_cons_of_pos h

lemma dropWhile_cons_neg (p : Char → Bool) (a : Char) (l : List Char)
    (h : p a = false) : (a :: l).dropWhile p = a :: l :=
  List.dropWhile_cons_of_neg (by simp [h])

lemma takeWhile_append_of_all {α} (p : α → Bool) :
    ∀ (l1 l2 : List α), (∀ x ∈ l1, p x = true) →
      (l1 ++ l2).takeWhile p = l1 ++ l2.takeWhile p := by
  intro l1
  induction l1 with
  | nil => intro l2 _; rfl
  | cons a tl ih =>
    intro l2 h
    rw [List.cons_append,
      List.takeWhile_cons_of_pos (h a (List.mem_cons_self a tl)),
      ih l2 (fun x hx => h x (List.mem_cons_of_mem a hx)), List.cons_append]

lemma takeWhile_append_of_not_all {α} (p : α → Bool) :
    ∀ (l1 l2 : List α), ¬(∀ x ∈ l1, p x = true) →
      (l1 ++ l2).takeWhile p = l1.takeWhile p := by
  intro l1
  induction l1 with
  | nil => intro l2 h; exact absurd (fun x hx => absurd hx (List.not_mem_nil x)) h
  | cons a tl ih =>
    intro l2 h
    by_cases hp : p a = true
    · have htl : ¬(∀ x ∈ tl, p x = true) := by
        intro hall
        exact h (fun x hx => by
          rcases List.mem_cons.1 hx with rfl | h2
          · exact hp
          · exact hall x h2)
      rw [List.cons_append, List.takeWhile_cons_of_pos hp, ih l2 htl,
        List.takeWhile_cons_of_pos hp]
    · rw [List.cons_append, List.takeWhile_cons_of_neg hp,
        List.takeWhile_cons_of_neg hp]

lemma dropWhile_append_of_all {α} (p : α → Bool) :
    ∀ (l1 l2 : List α), (∀ x ∈ l1, p x = true) →
      (l1 ++ l2).dropWhile p = l2.dropWhile p := by
  intro l1
  induction l1 with
  | nil => intro l2 _; rfl
  | cons a tl ih =>
    intro l2 h
    rw [List.cons_append,
      List.dropWhile_cons_of_pos (h a (List.mem_cons_self a tl)),
      ih l2 (fun x hx => h x (List.mem_cons_of_mem a hx))]

lemma dropWhile_head_false {α} (p : α → Bool) :
    ∀ (l : List α) (c : α) (r : List α), l.dropWhile p = c :: r → p c = false := by
  intro l
  induction l with
  | nil => intro c r h; simp at h
  | cons a tl ih =>
    intro c r h
    by_cases hp : p a = true
    · rw [List.dropWhile_cons_of_pos hp] at h
      exact ih c r h
    · rw [List.dropWhile_cons_of_neg hp] at h
      injection h with h1 h2
      rw [← h1]
      exact Bool.not_eq_true _ |>.mp hp

lemma isAlpha_pc (c : Char) (h : c.isAlpha = true) :
    (!(c = '?' || c = '#')) = true := by
  by_cases h1 : c = '?'
  · rw [h1] at h
    exact absurd h (by decide)
  by_cases h2 : c = '#'
  · rw [h2] at h
    exact absurd h (by decide)
  simp [h1, h2]

lemma isSchemeChar_pc (c : Char) (h : isSchemeChar c = true) :
    (!(c = '?' || c = '#')) = true := by
  by_cases h1 : c = '?'
  · rw [h1] at h
    exact absurd h (by decide)
  by_cases h2 : c = '#'
  · rw [h2] at h
    exact absurd h (by decide)
  simp [h1, h2]

lemma validScheme_pc (t : List Char) (h : validScheme t = true) :
    ∀ x ∈ t, (!(x = '?' || x = '#')) = true := by
  cases t with
  | nil => intro x hx; simp at hx
  | cons c cs =>
    unfold validScheme at h
    rw [Bool.and_eq_true] at h
    obtain ⟨h1, h2⟩ := h
    intro x hx
    rcases List.mem_cons.1 hx with rfl | hx2
    · exact isAlpha_pc x h1
    · exact isSchemeChar_pc x (List.all_eq_true.mp h2 x hx2)

lemma splitScheme_stripQF (s : List Char) :
    splitScheme (stripQueryFragment s) = stripQueryFragment (splitScheme s) := by
  cases hr : s.dropWhile (fun c => !(c = ':')) with
  | nil =>
    have hq : ∀ x ∈ s, (fun c => !(c = ':')) x = true :=
      List.dropWhile_eq_nil_iff.mp hr
    have h2 : (stripQueryFragment s).dropWhile (fun c => !(c = ':')) = [] :=
      List.dropWhile_eq_nil_iff.mpr
        (fun x hx => hq x (mem_of_takeWhile_mem _ s x hx))
    simp only [splitScheme, hr, h2]
  | cons c after =>
    have hc : (fun c => !(c = ':')) c = false := dropWhile_head_false _ s c after hr
    have hcc : c = ':' := by simpa using hc
    subst hcc
    have hsplit : s.takeWhile (fun c => !(c = ':')) ++ ':' :: after = s := by
      rw [← hr]
      exact List.takeWhile_append_dropWhile _ s
    have htq : ∀ x ∈ s.takeWhile (fun c => !(c = ':')),
        (fun c => !(c = ':')) x = true := by
      intro x hx
      have h := List.mem_takeWhile_imp hx
      exact h
    by_cases hall : ∀ x ∈ s.takeWhile (fun c => !(c = ':')),
        (fun c => !(c = '?' || c = '#')) x = true
    · have hcut : stripQueryFragment s =
          s.takeWhile (fun c => !(c = ':')) ++ ':' :: stripQueryFragment after := by
        unfold stripQueryFragment
        conv_lhs => rw [← hsplit]
        rw [takeWhile_append_of_all _ _ _ hall,
          takeWhile_cons_pos (fun c => !(c = '?' || c = '#')) ':' after (by decide)]
      have hdrop : (s.takeWhile (fun c => !(c = ':')) ++
            ':' :: stripQueryFragment after).dropWhile (fun c => !(c = ':')) =
          ':' :: stripQueryFragment after := by
        rw [dropWhile_append_of_all _ _ _ htq,
          dropWhile_cons_neg (fun c => !(c = ':')) ':'
            (stripQueryFragment after) (by decide)]
      have htake : (s.takeWhile (fun c => !(c = ':')) ++
            ':' :: stripQueryFragment after).takeWhile (fun c => !(c = ':')) =
          s.takeWhile (fun c => !(c = ':')) := by
        rw [takeWhile_append_of_all _ _ _ htq,
          takeWhile_cons_neg (fun c => !(c = ':')) ':'
            (stripQueryFragment after) (by decide),
          List.append_nil]
      rw [hcut]
      simp only [splitScheme, hdrop, htake, hr]
      by_cases hv : validScheme (s.takeWhile (fun c => !(c = ':'))) = true
      · rw [if_pos hv, if_pos hv]
      · rw [Bool.not_eq_true] at hv
        rw [if_neg (by simp [hv]), if_neg (by simp [hv])]
        exact hcut.symm
    · have hcut : stripQueryFragment s =
          stripQueryFragment (s.takeWhile (fun c => !(c = ':'))) := by
        unfold stripQueryFragment
        conv_lhs => rw [← hsplit]
        exact takeWhile_append_of_not_all _ _ _ hall
      have hvf : validScheme (s.takeWhile (fun c => !(c = ':'))) = false := by
        by_contra hv
        rw [Bool.not_eq_false] at hv
        exact hall (validScheme_pc _ hv)
      have hd2 : (stripQueryFragment (s.takeWhile (fun c => !(c = ':')))).dropWhile
            (fun c => !(c = ':')) = [] :=
        List.dropWhile_eq_nil_iff.mpr
          (fun x hx => htq x (mem_of_takeWhile_mem _ _ x hx))
      rw [hcut]
      simp only [splitScheme, hd2, hr]
      rw [if_neg (by simp [hvf])]
      exact hcut.symm

lemma dropWhile_takeWhile_comm :
    ∀ rest : List Char,
      (rest.takeWhile (fun c => !(c = '?' || c = '#'))).dropWhile
          (fun c => !(isNetlocDelim c)) =
        (rest.dropWhile (fun c => !(isNetlocDelim c))).takeWhile
          (fun c => !(c = '?' || c = '#')) := by
  intro rest
  induction rest with
  | nil => rfl
  | cons a rl ih =>
    cases hnd : isNetlocDelim a with
    | false =>
      have hpc : (!(a = '?' || a = '#')) = true := by
        simp only [isNetlocDelim, Bool.or_eq_false_iff,
          decide_eq_false_iff_not] at hnd
        simp [hnd.1.2, hnd.2]
      rw [takeWhile_cons_pos (fun c => !(c = '?' || c = '#')) a rl hpc,
        dropWhile_cons_pos (fun c => !(isNetlocDelim c)) a
          (rl.takeWhile (fun c => !(c = '?' || c = '#'))) (by simp [hnd]),
        dropWhile_cons_pos (fun c => !(isNetlocDelim c)) a rl (by simp [hnd]),
        ih]
    | true =>
      cases hpc : (a = '?' || a = '#') with
      | false =>
        rw [takeWhile_cons_pos (fun c => !(c = '?' || c = '#')) a rl
            (by simp [hpc]),
          dropWhile_cons_neg (fun c => !(isNetlocDelim c)) a
            (rl.takeWhile (fun c => !(c = '?' || c = '#'))) (by simp [hnd]),
          dropWhile_cons_neg (fun c => !(isNetlocDelim c)) a rl (by simp [hnd]),
          takeWhile_cons_pos (fun c => !(c = '?' || c = '#')) a rl
            (by simp [hpc])]
      | true =>
        rw [takeWhile_cons_neg (fun c => !(c = '?' || c = '#')) a rl
            (by simp [hpc]),
          dropWhile_cons_neg (fun c => !(isNetlocDelim c)) a rl (by simp [hnd]),
          takeWhile_cons_neg (fun c => !(c = '?' || c = '#')) a rl
            (by simp [hpc])]
        rfl

lemma splitNetloc_stripQF (t : List Char) :
    splitNetloc (stripQueryFragment t) =
      stripQueryFragment (splitNetloc t) := by
  unfold stripQueryFragment
  rcases t with _ | ⟨c1, t1⟩
  · rfl
  rcases t1 with _ | ⟨c2, rest⟩
  · rw [show splitNetloc [c1] = [c1] from rfl]
    cases h : (c1 = '?' || c1 = '#') with
    | false =>
      rw [takeWhile_cons_pos (fun c => !(c = '?' || c = '#')) c1 []
          (by simp [h]), List.takeWhile_nil]
      rfl
    | true =>
      rw [takeWhile_cons_neg (fun c => !(c = '?' || c = '#')) c1 []
          (by simp [h])]
      rfl
  by_cases h12 : c1 = '/' ∧ c2 = '/'
  · obtain ⟨rfl, rfl⟩ := h12
    rw [takeWhile_cons_pos (fun c => !(c = '?' || c = '#')) '/'
        ('/' :: rest) (by decide),
      takeWhile_cons_pos (fun c => !(c = '?' || c = '#')) '/' rest (by decide)]
    simp only [splitNetloc]
    rw [if_pos (And.intro trivial trivial), if_pos (And.intro trivial trivial)]
    exact dropWhile_takeWhile_comm rest
  · have hsp : splitNetloc (c1 :: c2 :: rest) = c1 :: c2 :: rest := by
      simp only [splitNetloc]
      rw [if_neg h12]
    rw [hsp]
    cases h1 : (c1 = '?' || c1 = '#') with
    | false =>
      rw [takeWhile_cons_pos (fun c => !(c = '?' || c = '#')) c1 (c2 :: rest)
          (by simp [h1])]
      cases h2 : (c2 = '?' || c2 = '#') with
      | false =>
        rw [takeWhile_cons_pos (fun c => !(c = '?' || c = '#')) c2 rest
            (by simp [h2])]
        simp only [splitNetloc]
        rw [if_neg h12]
      | true =>
        rw [takeWhile_cons_neg (fun c => !(c = '?' || c = '#')) c2 rest
            (by simp [h2])]
        rfl
    | true =>
      rw [takeWhile_cons_neg (fun c => !(c = '?' || c = '#')) c1 (c2 :: rest)
          (by simp [h1])]
      rfl

lemma takeWhile_qf_strip :
    ∀ v : List Char,
      ((stripQueryFragment v).takeWhile (fun c => !(c = '#'))).takeWhile
          (fun c => !(c = '?')) =
        (v.takeWhile (fun c => !(c = '#'))).takeWhile (fun c => !(c = '?')) := by
  intro v
  unfold stripQueryFragment
  induction v with
  | nil => rfl
  | cons a vl ih =>
    by_cases h1 : a = '?'
    · subst h1
      rw [takeWhile_cons_neg (fun c => !(c = '?' || c = '#')) '?' vl (by decide),
        takeWhile_cons_pos (fun c => !(c = '#')) '?' vl (by decide),
        takeWhile_cons_neg (fun c => !(c = '?')) '?'
          (vl.takeWhile (fun c => !(c = '#'))) (by decide)]
      rfl
    · by_cases h2 : a = '#'
      · subst h2
        rw [takeWhile_cons_neg (fun c => !(c = '?' || c = '#')) '#' vl (by decide),
          takeWhile_cons_neg (fun c => !(c = '#')) '#' vl (by decide)]
        rfl
      · have hpc : (!(a = '?' || a = '#')) = true := by simp [h1, h2]
        have hh : (!(a = '#')) = true := by simp [h2]
        have hq : (!(a = '?')) = true := by simp [h1]
        rw [takeWhile_cons_pos (fun c => !(c = '?' || c = '#')) a vl hpc,
          takeWhile_cons_pos (fun c => !(c = '#')) a
            (vl.takeWhile (fun c => !(c = '?' || c = '#'))) hh,
          takeWhile_cons_pos (fun c => !(c = '?')) a
            ((vl.takeWhile (fun c => !(c = '?' || c = '#'))).takeWhile
              (fun c => !(c = '#'))) hq,
          takeWhile_cons_pos (fun c => !(c = '#')) a vl hh,
          takeWhile_cons_pos (fun c => !(c = '?')) a
            (vl.takeWhile (fun c => !(c = '#'))) hq,
          ih]

lemma urlSchemeChars_stripQF (s : List Char) :
    urlSchemeChars (stripQueryFragment s) = urlSchemeChars s := by
  cases hr : s.dropWhile (fun c => !(c = ':')) with
  | nil =>
    have hq : ∀ x ∈ s, (fun c => !(c = ':')) x = true :=
      List.dropWhile_eq_nil_iff.mp hr
    have h2 : (stripQueryFragment s).dropWhile (fun c => !(c = ':')) = [] :=
      List.dropWhile_eq_nil_iff.mpr
        (fun x hx => hq x (mem_of_takeWhile_mem _ s x hx))
    simp only [urlSchemeChars, hr, h2]
  | cons c after =>
    have hc : (fun c => !(c = ':')) c = false := dropWhile_head_false _ s c after hr
    have hcc : c = ':' := by simpa using hc
    subst hcc
    have hsplit : s.takeWhile (fun c => !(c = ':')) ++ ':' :: after = s := by
      rw [← hr]
      exact List.takeWhile_append_dropWhile _ s
    have htq : ∀ x ∈ s.takeWhile (fun c => !(c = ':')),
        (fun c => !(c = ':')) x = true := by
      intro x hx
      have h := List.mem_takeWhile_imp hx
      exact h
    by_cases hall : ∀ x ∈ s.takeWhile (fun c => !(c = ':')),
        (fun c => !(c = '?' || c = '#')) x = true
    · have hcut : stripQueryFragment s =
          s.takeWhile (fun c => !(c = ':')) ++ ':' :: stripQueryFragment after := by
        unfold stripQueryFragment
        conv_lhs => rw [← hsplit]
        rw [takeWhile_append_of_all _ _ _ hall,
          takeWhile_cons_pos (fun c => !(c = '?' || c = '#')) ':' after (by decide)]
      have hdrop : (s.takeWhile (fun c => !(c = ':')) ++
            ':' :: stripQueryFragment after).dropWhile (fun c => !(c = ':')) =
          ':' :: stripQueryFragment after := by
        rw [dropWhile_append_of_all _ _ _ htq,
          dropWhile_cons_neg (fun c => !(c = ':')) ':'
            (stripQueryFragment after) (by decide)]
      have htake : (s.takeWhile (fun c => !(c = ':')) ++
            ':' :: stripQueryFragment after).takeWhile (fun c => !(c = ':')) =
          s.takeWhile (fun c => !(c = ':')) := by
        rw [takeWhile_append_of_all _ _ _ htq,
          takeWhile_cons_neg (fun c => !(c = ':')) ':'
            (stripQueryFragment after) (by decide),
          List.append_nil]
      rw [hcut]
      simp only [urlSchemeChars, hdrop, htake, hr]
    · have hcut : stripQueryFragment s =
          stripQueryFragment (s.takeWhile (fun c => !(c = ':'))) := by
        unfold stripQueryFragment
        conv_lhs => rw [← hsplit]
        exact takeWhile_append_of_not_all _ _ _ hall
      have hvf : validScheme (s.takeWhile (fun c => !(c = ':'))) = false := by
        by_contra hv
        rw [Bool.not_eq_false] at hv
        exact hall (validScheme_pc _ hv)
      have hd2 : (stripQueryFragment (s.takeWhile (fun c => !(c = ':')))).dropWhile
            (fun c => !(c = ':')) = [] :=
        List.dropWhile_eq_nil_iff.mpr
          (fun x hx => htq x (mem_of_takeWhile_mem _ _ x hx))
      rw [hcut]
      simp only [urlSchemeChars, hd2, hr]
      rw [if_neg (by simp [hvf])]

lemma rawPathChars_stripQF (s : List Char) :
    rawPathChars (stripQueryFragment s) = rawPathChars s := by
  unfold rawPathChars
  rw [splitScheme_stripQF, splitNetloc_stripQF, takeWhile_qf_strip]

lemma urlPathChars_stripQF (s : List Char) :
    urlPathChars (stripQueryFragment s) = urlPathChars s := by
  unfold urlPathChars
  rw [urlSchemeChars_stripQF, rawPathChars_stripQF]

/-- C10: the archive entry name depends only on the URL's path
component — truncating the URL at the first `?` or `#` (dropping the
query string and the fragment) never changes the name, as in
`https://h/a/b.html?x=1#f` yielding `b.html` — and the name never
contains a path separator `/`, so every entry sits at the root of the
archive. -/
theorem c10_name_from_path (url : String) :
    entryName url = entryName (String.mk (stripQueryFragment url.data)) ∧
    '/' ∉ (entryName url).data ∧
    entryName "https://h/a/b.html?x=1#f" = "b.html" := by
  refine ⟨?_, ?_, by decide⟩
  · unfold entryName
    rw [show (String.mk (stripQueryFragment url.data)).data =
        stripQueryFragment url.data from rfl, urlPathChars_stripQF]
  · unfold entryName
    by_cases h : basenameChars (urlPathChars url.data) = []
    · simp only [h, if_pos rfl]
      decide
    · simp only [h, if_neg h]
      exact basenameChars_no_slash _

/-- C10 witness: the invariance at a concrete URL with query and
fragment. -/
theorem c10_witness :
    entryName "https://h/a/b.html?x=1#f" =
      entryName (String.mk (stripQueryFragment ("https://h/a/b.html?x=1#f").data)) :=
  (c10_name_from_path "https://h/a/b.html?x=1#f").1

end Downloader
